import Mathlib

/-!
Shallow embedding of the DDoS ratio-anomaly detector
(`App.py`, function `inspect_ddos` together with `print_and_send` and the
parameters set in `__main__`).

The detector consumes parsed flow records.  A record carries a source
address, a destination address and a packet count.  The configured network
filter (a regex in the source) is abstracted as a boolean predicate on
host identifiers.  Time is modelled as a stream of base intervals: the
function `f : Nat → List FlowRecord` gives the records of each 30-second
base interval, and tick `t` is the moment interval `t` is sealed.
-/

set_option maxHeartbeats 1000000

namespace DDoS

/-- A parsed flow record (fields `ipfix.sourceIPv4Address`,
`ipfix.destinationIPv4Address`, `ipfix.packetDeltaCount`).  Records missing
one of these fields are dropped before reaching the detector
(`App.py` lines 78-82). -/
structure FlowRecord where
  sourceAddress : String
  destinationAddress : String
  packetDelta : Nat
  deriving DecidableEq, Repr

/-- Per-host short-window value: the triple
`(incoming packets, outgoing packets, set of inbound source addresses)`
built by the maps at `App.py` lines 89-98 and reduced at lines 101-104. -/
structure STally where
  incomingPackets : Nat
  outgoingPackets : Nat
  inboundSources : Finset String
  deriving DecidableEq

/-- Detection parameters from `__main__` (`App.py` lines 149-152). -/
def threshold : Nat := 50

def minimal_incoming : Nat := 100000

def long_window_length : Nat := 7200

def base_window_length : Nat := 30

/-- Number of base intervals covered by the long window. -/
def horizonIntervals : Nat := long_window_length / base_window_length

/-- The flow classifier (`App.py` lines 89-98): a record whose destination
matches the local-network predicate yields the keyed value
`(dst, (delta, 0, {src}))`; a record whose source matches yields
`(src, (0, delta, ∅))`.  Both fire for local-to-local traffic. -/
def classify (p : String → Bool) (r : FlowRecord) : List (String × STally) :=
  (if p r.destinationAddress then
    [(r.destinationAddress, ⟨r.packetDelta, 0, {r.sourceAddress}⟩)]
   else []) ++
  (if p r.sourceAddress then
    [(r.sourceAddress, ⟨0, r.packetDelta, ∅⟩)]
   else [])

/-- All keyed values produced from the records of one base interval
(the union of the incoming and outgoing streams, lines 89-101). -/
def eventsIn (p : String → Bool) (recs : List FlowRecord) : List (String × STally) :=
  recs.flatMap (classify p)

/-- The list of values keyed by host `h` in one base interval. -/
def valuesFor (p : String → Bool) (recs : List FlowRecord) (h : String) : List STally :=
  ((eventsIn p recs).filter (fun e => e.1 == h)).map Prod.snd

/-- The reduce function of `reduceByKey` at `App.py` lines 102-104. -/
def combineShort (a b : STally) : STally :=
  ⟨a.incomingPackets + b.incomingPackets,
   a.outgoingPackets + b.outgoingPackets,
   a.inboundSources ∪ b.inboundSources⟩

/-- `reduceByKey` semantics for one key: absent when the key has no value,
otherwise the reduction of all its values.  The reduce function is
associative and commutative, so the fold order is immaterial. -/
def reduceShort : List STally → Option STally
  | [] => none
  | s :: rest => some (rest.foldl combineShort s)

/-- The sealed short-window mapping (`small_window_aggregated`,
`App.py` lines 101-104), looked up at host `h`. -/
def shortWindow (p : String → Bool) (recs : List FlowRecord) (h : String) : Option STally :=
  reduceShort (valuesFor p recs h)

/-- Value held for a host in the long-window mapping (`App.py` lines
107-110).  The reduce lambda returns a pair, but `reduceByKey` never calls
it when a key has a single value, so a host contributing exactly one
per-interval tally keeps the full triple, attacker set included. -/
inductive LongVal where
  | single (s : STally)
  | reduced (inc out : Nat)
  deriving DecidableEq

/-- Index `0` of a long-window value, as read at `App.py` lines 124 and 51. -/
def longInc : LongVal → Nat
  | .single s => s.incomingPackets
  | .reduced i _ => i

/-- Index `1` of a long-window value, as read at `App.py` lines 125 and 51. -/
def longOut : LongVal → Nat
  | .single s => s.outgoingPackets
  | .reduced _ o => o

/-- The base intervals covered by the long window at tick `t`:
`window(long_window_length, base_window_length)` over the per-interval
aggregates keeps the last `horizonIntervals` of them (fewer while the
stream is younger than the horizon). -/
def longIntervals (t : Nat) : List Nat :=
  (List.range (t + 1)).filter (fun i => t < i + horizonIntervals)

/-- The per-interval short tallies of host `h` inside the long window. -/
def intervalTallies (p : String → Bool) (f : Nat → List FlowRecord) (t : Nat)
    (h : String) : List STally :=
  (longIntervals t).filterMap (fun i => shortWindow p (f i) h)

/-- `reduceByKey` at `App.py` lines 108-110 for one key: with a single
value the value passes through unreduced; with two or more, the lambda
`(actual[0] + update[0], actual[1] + update[1])` yields the pair of sums
whatever the reduction tree. -/
def reduceLong : List STally → Option LongVal
  | [] => none
  | [s] => some (LongVal.single s)
  | s :: s2 :: rest =>
      some (LongVal.reduced
        (((s :: s2 :: rest).map STally.incomingPackets).sum)
        (((s :: s2 :: rest).map STally.outgoingPackets).sum))

/-- The long-window mapping (`long_window_aggregated`), looked up at `h`. -/
def longWindow (p : String → Bool) (f : Nat → List FlowRecord) (t : Nat)
    (h : String) : Option LongVal :=
  reduceLong (intervalTallies p f t h)

/-- The inner join `windows_union` (`App.py` line 115), looked up at `h`. -/
def joined (p : String → Bool) (f : Nat → List FlowRecord) (t : Nat)
    (h : String) : Option (STally × LongVal) :=
  match shortWindow p (f t) h, longWindow p f t h with
  | some s, some l => some (s, l)
  | _, _ => none

/-- The detection condition of `windows_union_filtered`
(`App.py` lines 123-126): incoming volume above `minimal_incoming` and
short ratio above `threshold` times the long ratio. -/
def suspicious (s : STally) (l : LongVal) : Bool :=
  decide (minimal_incoming < s.incomingPackets) &&
  decide ((longInc l : ℚ) / (longOut l : ℚ) * (threshold : ℚ) <
    (s.incomingPackets : ℚ) / (s.outgoingPackets : ℚ))

/-- Whether host `h` is in the returned RDD `windows_union_filtered` at
tick `t`: present in the join, passes the zero guard (`App.py` line 118)
and the detection filter (lines 123-126). -/
def alerted (p : String → Bool) (f : Nat → List FlowRecord) (t : Nat)
    (h : String) : Bool :=
  match joined p f t h with
  | some (s, l) =>
      (s.outgoingPackets != 0 && longOut l != 0) && suspicious s l
  | none => false

/-- The alert record built by `print_and_send` (`App.py` lines 49-58)
from one entry of the detected RDD.  Ratios are modelled in `ℚ`. -/
structure Alert where
  dst_ip : String
  shortratio : ℚ
  longratio : ℚ
  attackers : Finset String

/-- The construction of one alert entry inside `print_and_send`. -/
def mkAlert (host : String) (stats : STally × LongVal) : Alert :=
  ⟨host,
   (stats.1.incomingPackets : ℚ) / (stats.1.outgoingPackets : ℚ),
   (longInc stats.2 : ℚ) / (longOut stats.2 : ℚ),
   stats.1.inboundSources⟩

/-! Reference functions on raw records, used to state the claims. -/

/-- The records of an interval attributed inbound to host `h`. -/
def inboundRecords (p : String → Bool) (recs : List FlowRecord) (h : String) :
    List FlowRecord :=
  recs.filter (fun r => p r.destinationAddress && r.destinationAddress == h)

/-- The records of an interval attributed outbound to host `h`. -/
def outboundRecords (p : String → Bool) (recs : List FlowRecord) (h : String) :
    List FlowRecord :=
  recs.filter (fun r => p r.sourceAddress && r.sourceAddress == h)

/-- Total inbound packets for host `h` in one interval. -/
def incSum (p : String → Bool) (recs : List FlowRecord) (h : String) : Nat :=
  ((inboundRecords p recs h).map FlowRecord.packetDelta).sum

/-- Total outbound packets for host `h` in one interval. -/
def outSum (p : String → Bool) (recs : List FlowRecord) (h : String) : Nat :=
  ((outboundRecords p recs h).map FlowRecord.packetDelta).sum

/-- The distinct source addresses observed inbound to `h` in one interval. -/
def inboundSet (p : String → Bool) (recs : List FlowRecord) (h : String) :
    Finset String :=
  ((inboundRecords p recs h).map FlowRecord.sourceAddress).toFinset

/-- All records of an interval that produce an inbound event. -/
def inboundEvents (p : String → Bool) (recs : List FlowRecord) : List FlowRecord :=
  recs.filter (fun r => p r.destinationAddress)

/-- The hosts present in the sealed short-window mapping of an interval. -/
def hostsOf (p : String → Bool) (recs : List FlowRecord) : Finset String :=
  ((eventsIn p recs).map Prod.fst).toFinset

/-! Concrete inputs for witnesses and counterexamples. -/

/-- Demo predicate: the monitored network contains the single host `V`. -/
def demoPred : String → Bool := fun a => a == "V"

/-- One inbound record in interval `0`, nothing afterwards. -/
def demoStream1 : Nat → List FlowRecord :=
  fun t => if t = 0 then [⟨"A", "V", 5⟩] else []

/-- Activity in intervals `0` and `1`: outbound history in interval `0`,
then a large inbound burst with a single outbound packet in interval `1`. -/
def demoStream2 : Nat → List FlowRecord :=
  fun t =>
    if t = 0 then [⟨"V", "B", 1000⟩]
    else if t = 1 then [⟨"A", "V", 100001⟩, ⟨"V", "B", 1⟩]
    else []

/-- Inbound-only traffic: the victim never answers, so the short outgoing
count stays zero. -/
def demoStream3 : Nat → List FlowRecord :=
  fun t => if t = 0 then [⟨"A", "V", 7⟩, ⟨"C", "V", 3⟩] else []

/-- Union of the inbound-source sets of a list of tallies. -/
def unionSrc (l : List STally) : Finset String :=
  l.foldr (fun a acc => a.inboundSources ∪ acc) ∅

/-! ### Lemmas about the short-window reduction -/

lemma foldl_combineShort_inc (l : List STally) (s : STally) :
    (l.foldl combineShort s).incomingPackets =
      s.incomingPackets + (l.map STally.incomingPackets).sum := by
  induction l generalizing s with
  | nil => simp
  | cons a l ih => simp [combineShort, ih, Nat.add_assoc]

lemma foldl_combineShort_out (l : List STally) (s : STally) :
    (l.foldl combineShort s).outgoingPackets =
      s.outgoingPackets + (l.map STally.outgoingPackets).sum := by
  induction l generalizing s with
  | nil => simp
  | cons a l ih => simp [combineShort, ih, Nat.add_assoc]

lemma foldl_combineShort_src (l : List STally) (s : STally) :
    (l.foldl combineShort s).inboundSources =
      s.inboundSources ∪ unionSrc l := by
  induction l generalizing s with
  | nil => simp [unionSrc]
  | cons a l ih => simp [combineShort, ih, unionSrc, Finset.union_assoc]

lemma reduceShort_eq_none (l : List STally) :
    reduceShort l = none ↔ l = [] := by
  cases l <;> simp [reduceShort]

lemma reduceShort_spec (l : List STally) (s : STally)
    (h : reduceShort l = some s) :
    s.incomingPackets = (l.map STally.incomingPackets).sum ∧
    s.outgoingPackets = (l.map STally.outgoingPackets).sum ∧
    s.inboundSources = unionSrc l := by
  cases l with
  | nil => simp [reduceShort] at h
  | cons a rest =>
    simp only [reduceShort, Option.some.injEq] at h
    subst h
    refine ⟨?_, ?_, ?_⟩
    · simp [foldl_combineShort_inc]
    · simp [foldl_combineShort_out]
    · simp [foldl_combineShort_src, unionSrc]

lemma valuesFor_cons (p : String → Bool) (r : FlowRecord)
    (recs : List FlowRecord) (h : String) :
    valuesFor p (r :: recs) h =
      ((classify p r).filter (fun e => e.1 == h)).map Prod.snd ++
        valuesFor p recs h := by
  simp [valuesFor, eventsIn, List.filter_append]

lemma unionSrc_nil : unionSrc [] = ∅ := rfl

lemma unionSrc_cons (a : STally) (l : List STally) :
    unionSrc (a :: l) = a.inboundSources ∪ unionSrc l := rfl

lemma unionSrc_append (l1 l2 : List STally) :
    unionSrc (l1 ++ l2) = unionSrc l1 ∪ unionSrc l2 := by
  induction l1 with
  | nil => rw [List.nil_append, unionSrc_nil, Finset.empty_union]
  | cons a l ih =>
    rw [List.cons_append, unionSrc_cons, unionSrc_cons, ih, Finset.union_assoc]

lemma inboundSet_cons (p : String → Bool) (r : FlowRecord)
    (recs : List FlowRecord) (h : String) :
    inboundSet p (r :: recs) h =
      if p r.destinationAddress && (r.destinationAddress == h) then
        insert r.sourceAddress (inboundSet p recs h)
      else inboundSet p recs h := by
  cases hc : (p r.destinationAddress && (r.destinationAddress == h)) <;>
    simp [inboundSet, inboundRecords, List.filter_cons, hc]

lemma sumInc_valuesFor (p : String → Bool) (recs : List FlowRecord) (h : String) :
    ((valuesFor p recs h).map STally.incomingPackets).sum = incSum p recs h := by
  induction recs with
  | nil => rfl
  | cons r recs ih =>
    rw [valuesFor_cons]
    cases hpd : p r.destinationAddress <;> cases hps : p r.sourceAddress <;>
      cases hdh : r.destinationAddress == h <;> cases hsh : r.sourceAddress == h <;>
      simp [classify, hpd, hps, hdh, hsh, ih, incSum, inboundRecords,
        List.filter_cons]

lemma sumOut_valuesFor (p : String → Bool) (recs : List FlowRecord) (h : String) :
    ((valuesFor p recs h).map STally.outgoingPackets).sum = outSum p recs h := by
  induction recs with
  | nil => rfl
  | cons r recs ih =>
    rw [valuesFor_cons]
    cases hpd : p r.destinationAddress <;> cases hps : p r.sourceAddress <;>
      cases hdh : r.destinationAddress == h <;> cases hsh : r.sourceAddress == h <;>
      simp [classify, hpd, hps, hdh, hsh, ih, outSum, outboundRecords,
        List.filter_cons]

lemma unionSrc_valuesFor (p : String → Bool) (recs : List FlowRecord) (h : String) :
    unionSrc (valuesFor p recs h) = inboundSet p recs h := by
  induction recs with
  | nil => rfl
  | cons r recs ih =>
    rw [valuesFor_cons, unionSrc_append, ih, inboundSet_cons]
    cases hpd : p r.destinationAddress <;> cases hps : p r.sourceAddress <;>
      cases hdh : r.destinationAddress == h <;> cases hsh : r.sourceAddress == h <;>
      simp [classify, hpd, hps, hdh, hsh, List.filter_cons, unionSrc_cons,
        unionSrc_nil, Finset.insert_eq]

/-- What the sealed short-window tally of a host contains, in terms of the
raw records of the interval. -/
lemma shortWindow_spec (p : String → Bool) (recs : List FlowRecord)
    (h : String) (s : STally) (hs : shortWindow p recs h = some s) :
    s.incomingPackets = incSum p recs h ∧
    s.outgoingPackets = outSum p recs h ∧
    s.inboundSources = inboundSet p recs h := by
  obtain ⟨h1, h2, h3⟩ := reduceShort_spec _ _ hs
  exact ⟨h1.trans (sumInc_valuesFor p recs h),
    h2.trans (sumOut_valuesFor p recs h),
    h3.trans (unionSrc_valuesFor p recs h)⟩

/-! ### Lemmas about the long-window reduction and the join -/

lemma reduceLong_eq_none (l : List STally) :
    reduceLong l = none ↔ l = [] := by
  cases l with
  | nil => simp [reduceLong]
  | cons a rest => cases rest <;> simp [reduceLong]

lemma reduceLong_spec (l : List STally) (v : LongVal)
    (h : reduceLong l = some v) :
    longInc v = (l.map STally.incomingPackets).sum ∧
    longOut v = (l.map STally.outgoingPackets).sum := by
  cases l with
  | nil => simp [reduceLong] at h
  | cons a rest =>
    cases rest with
    | nil =>
      simp only [reduceLong, Option.some.injEq] at h
      subst h
      simp [longInc, longOut]
    | cons b rest2 =>
      simp only [reduceLong, Option.some.injEq] at h
      subst h
      simp [longInc, longOut]

lemma reduceLong_of_two (l : List STally) (v : LongVal)
    (h : reduceLong l = some v) (hl : 2 ≤ l.length) :
    ∃ i o, v = LongVal.reduced i o := by
  cases l with
  | nil => simp [reduceLong] at h
  | cons a rest =>
    cases rest with
    | nil => simp at hl
    | cons b rest2 =>
      simp only [reduceLong, Option.some.injEq] at h
      exact ⟨_, _, h.symm⟩

lemma filterMap_map_sum (g : STally → Nat) (q : Nat → Option STally)
    (l : List Nat) :
    ((l.filterMap q).map g).sum = (l.map (fun i => (q i).elim 0 g)).sum := by
  induction l with
  | nil => rfl
  | cons a l ih => cases hqa : q a <;> simp [List.filterMap_cons, hqa, ih]

lemma longIntervals_mem (t i : Nat) :
    i ∈ longIntervals t ↔ i ≤ t ∧ t < i + horizonIntervals := by
  simp [longIntervals, List.mem_filter, List.mem_range, Nat.lt_succ_iff]

lemma joined_eq_some (p : String → Bool) (f : Nat → List FlowRecord) (t : Nat)
    (h : String) (s : STally) (l : LongVal) :
    joined p f t h = some (s, l) ↔
      shortWindow p (f t) h = some s ∧ longWindow p f t h = some l := by
  unfold joined
  cases hs : shortWindow p (f t) h <;> cases hl : longWindow p f t h <;> simp

lemma alerted_eq (p : String → Bool) (f : Nat → List FlowRecord) (t : Nat)
    (h : String) (s : STally) (l : LongVal)
    (hj : joined p f t h = some (s, l)) :
    alerted p f t h =
      ((s.outgoingPackets != 0 && longOut l != 0) && suspicious s l) := by
  unfold alerted
  rw [hj]

/-! ### The claims -/

/-- C1: for every host present in both the sealed short-window mapping and
the long-window mapping whose short and long outgoing packet counts are
both nonzero, an alert is emitted if and only if the short incoming count
strictly exceeds `minimal_incoming` (100000) and the short
incoming/outgoing ratio strictly exceeds the long ratio times the
`threshold` multiplier (50). -/
theorem C1_alert_iff (p : String → Bool) (f : Nat → List FlowRecord) (t : Nat)
    (h : String) (s : STally) (l : LongVal)
    (hs : shortWindow p (f t) h = some s) (hl : longWindow p f t h = some l)
    (h1 : s.outgoingPackets ≠ 0) (h2 : longOut l ≠ 0) :
    alerted p f t h = true ↔
      (minimal_incoming < s.incomingPackets ∧
        (s.incomingPackets : ℚ) / (s.outgoingPackets : ℚ) >
          (longInc l : ℚ) / (longOut l : ℚ) * (threshold : ℚ)) := by
  have hj : joined p f t h = some (s, l) :=
    (joined_eq_some p f t h s l).mpr ⟨hs, hl⟩
  rw [alerted_eq p f t h s l hj]
  simp [suspicious, h1, h2, Bool.and_eq_true, bne_iff_ne, ne_eq,
    decide_eq_true_eq, gt_iff_lt]

theorem C1_witness :
    alerted demoPred demoStream2 1 "V" = true ↔
      (minimal_incoming < 100001 ∧
        ((100001 : Nat) : ℚ) / ((1 : Nat) : ℚ) >
          ((100001 : Nat) : ℚ) / ((1001 : Nat) : ℚ) * (threshold : ℚ)) :=
  C1_alert_iff demoPred demoStream2 1 "V" ⟨100001, 1, {"A"}⟩
    (LongVal.reduced 100001 1001) (by decide) (by decide) (by decide) (by decide)

/-- C2: no alert is ever emitted for a host whose short outgoing count or
long outgoing count is zero, and conversely every alerted host has both
nonzero, so the ratio divisions performed at emission never divide by
zero. -/
theorem C2_zero_guard (p : String → Bool) (f : Nat → List FlowRecord) (t : Nat)
    (h : String) :
    (∀ s l, joined p f t h = some (s, l) →
      s.outgoingPackets = 0 ∨ longOut l = 0 → alerted p f t h = false) ∧
    (alerted p f t h = true →
      ∀ s l, joined p f t h = some (s, l) →
        s.outgoingPackets ≠ 0 ∧ longOut l ≠ 0) := by
  constructor
  · intro s l hj hz
    rw [alerted_eq p f t h s l hj]
    rcases hz with hz | hz <;> simp [hz]
  · intro ha s l hj
    rw [alerted_eq p f t h s l hj] at ha
    simp only [Bool.and_eq_true, bne_iff_ne, ne_eq] at ha
    exact ⟨ha.1.1, ha.1.2⟩

theorem C2_witness : alerted demoPred demoStream3 0 "V" = false :=
  (C2_zero_guard demoPred demoStream3 0 "V").1 ⟨10, 0, {"A", "C"}⟩
    (LongVal.single ⟨10, 0, {"A", "C"}⟩) (by decide) (Or.inl (by decide))

/-- C3: the detector joins the two mappings as an inner join on the host
identifier, so a host present in only one of the two mappings produces no
alert at that tick. -/
theorem C3_inner_join (p : String → Bool) (f : Nat → List FlowRecord) (t : Nat)
    (h : String) :
    ((joined p f t h).isSome ↔
      (shortWindow p (f t) h).isSome ∧ (longWindow p f t h).isSome) ∧
    (shortWindow p (f t) h = none ∨ longWindow p f t h = none →
      alerted p f t h = false) := by
  constructor
  · unfold joined
    cases hs : shortWindow p (f t) h <;> cases hl : longWindow p f t h <;> simp
  · intro hnone
    rcases hnone with hn | hn
    · unfold alerted joined
      rw [hn]
    · unfold alerted joined
      rw [hn]
      cases shortWindow p (f t) h <;> rfl

theorem C3_witness : alerted demoPred demoStream1 1 "V" = false :=
  (C3_inner_join demoPred demoStream1 1 "V").2 (Or.inl (by decide))

/-- C4: the classifier produces the inbound keyed value
`(destinationAddress, (packetDelta, 0, {sourceAddress}))` exactly when the
destination matches the local-network predicate and the outbound keyed
value `(sourceAddress, (0, packetDelta, ∅))` exactly when the source
matches; both fire when both sides match and nothing fires when neither
does. -/
theorem C4_classifier (p : String → Bool) (r : FlowRecord) :
    ((r.destinationAddress,
        (⟨r.packetDelta, 0, {r.sourceAddress}⟩ : STally)) ∈ classify p r ↔
      p r.destinationAddress = true) ∧
    ((r.sourceAddress, (⟨0, r.packetDelta, ∅⟩ : STally)) ∈ classify p r ↔
      p r.sourceAddress = true) ∧
    (p r.destinationAddress = true → p r.sourceAddress = true →
      classify p r =
        [(r.destinationAddress, ⟨r.packetDelta, 0, {r.sourceAddress}⟩),
         (r.sourceAddress, ⟨0, r.packetDelta, ∅⟩)]) ∧
    (p r.destinationAddress = false → p r.sourceAddress = false →
      classify p r = []) := by
  cases hd : p r.destinationAddress <;> cases hs2 : p r.sourceAddress <;>
    simp [classify, hd, hs2, Prod.ext_iff, Finset.singleton_ne_empty]
  intro _ _ _ hE
  exact Finset.singleton_ne_empty _ hE.symm

theorem C4_witness :
    classify demoPred ⟨"V", "V", 2⟩ =
      [("V", ⟨2, 0, {"V"}⟩), ("V", ⟨0, 2, ∅⟩)] :=
  (C4_classifier demoPred ⟨"V", "V", 2⟩).2.2.1 (by decide) (by decide)

/-- C7: the short-window tally field `inboundSources` is populated only by
inbound attribution: it equals the set of source addresses of the
inbound records of the interval, and combining in an outbound value never adds
to it. -/
theorem C7_sources_inbound_only (p : String → Bool) (recs : List FlowRecord)
    (h : String) (s : STally) (hs : shortWindow p recs h = some s) :
    s.inboundSources = inboundSet p recs h ∧
    ∀ (a : STally) (d : Nat),
      (combineShort a ⟨0, d, ∅⟩).inboundSources = a.inboundSources := by
  refine ⟨(shortWindow_spec p recs h s hs).2.2, ?_⟩
  intro a d
  simp [combineShort]

theorem C7_witness :
    ({"A"} : Finset String) = inboundSet demoPred (demoStream2 1) "V" ∧
    ∀ (a : STally) (d : Nat),
      (combineShort a ⟨0, d, ∅⟩).inboundSources = a.inboundSources :=
  C7_sources_inbound_only demoPred (demoStream2 1) "V" ⟨100001, 1, {"A"}⟩
    (by decide)

/-! ### Grouping lemma for the conservation property -/

lemma filter_key_nil (k : String) (l : List (String × STally))
    (hk : k ∉ l.map Prod.fst) :
    l.filter (fun e => e.1 == k) = [] := by
  induction l with
  | nil => rfl
  | cons a tl ih =>
    simp only [List.map_cons, List.mem_cons, not_or] at hk
    have hne : (a.1 == k) = false :=
      beq_eq_false_iff_ne.mpr fun hEq => hk.1 hEq.symm
    simp [List.filter_cons, hne, ih hk.2]

lemma sum_group (g : STally → Nat) (l : List (String × STally)) :
    ∑ h in (l.map Prod.fst).toFinset,
      ((l.filter (fun e => e.1 == h)).map (fun e => g e.2)).sum
      = (l.map (fun e => g e.2)).sum := by
  induction l with
  | nil => simp
  | cons a tl ih =>
    have hsplit : ∀ h : String,
        (((a :: tl).filter (fun e => e.1 == h)).map (fun e => g e.2)).sum
          = ((tl.filter (fun e => e.1 == h)).map (fun e => g e.2)).sum
            + (if a.1 = h then g a.2 else 0) := by
      intro h
      rw [List.filter_cons]
      cases hah : (a.1 == h) with
      | false =>
        have : ¬ a.1 = h := beq_eq_false_iff_ne.mp hah
        simp [this]
      | true =>
        have : a.1 = h := beq_iff_eq.mp hah
        simp [this, Nat.add_comm]
    rw [List.map_cons, List.toFinset_cons]
    rw [Finset.sum_congr rfl fun h _ => hsplit h]
    rw [Finset.sum_add_distrib, Finset.sum_ite_eq,
      if_pos (Finset.mem_insert_self a.1 _)]
    rw [List.map_cons, List.sum_cons]
    by_cases hmem : a.1 ∈ (tl.map Prod.fst).toFinset
    · rw [Finset.insert_eq_self.mpr hmem, ih, Nat.add_comm]
    · rw [Finset.sum_insert hmem]
      have hz : ((tl.filter (fun e => e.1 == a.1)).map (fun e => g e.2)).sum = 0 := by
        rw [filter_key_nil a.1 tl (fun hmm => hmem (List.mem_toFinset.mpr hmm))]
        rfl
      rw [hz, Nat.zero_add, ih, Nat.add_comm]

lemma shortWindow_elim_inc (p : String → Bool) (recs : List FlowRecord)
    (h : String) :
    (shortWindow p recs h).elim 0 STally.incomingPackets =
      ((valuesFor p recs h).map STally.incomingPackets).sum := by
  cases hs : shortWindow p recs h with
  | none =>
    have hv : valuesFor p recs h = [] := (reduceShort_eq_none _).mp hs
    simp [hv]
  | some s =>
    simpa using (reduceShort_spec _ _ hs).1

lemma eventsIn_inc_sum (p : String → Bool) (recs : List FlowRecord) :
    ((eventsIn p recs).map (fun e => STally.incomingPackets e.2)).sum
      = ((inboundEvents p recs).map FlowRecord.packetDelta).sum := by
  induction recs with
  | nil => rfl
  | cons r recs ih =>
    have hcons : eventsIn p (r :: recs) = classify p r ++ eventsIn p recs := rfl
    rw [hcons, List.map_append, List.sum_append, ih]
    cases hd : p r.destinationAddress <;> cases hs2 : p r.sourceAddress <;>
      simp [classify, hd, hs2, inboundEvents, List.filter_cons]

/-! ### Remaining claims -/

/-- C5: at every tick the incoming and outgoing counts of the long-window
value are the sums of the per-interval short-window tallies of the host over the
trailing horizon of `long_window_length / base_window_length = 240` base
intervals (older intervals are outside `longIntervals` and hence evicted),
and a host with no tally in any interval of the horizon is absent from the
long-window mapping. -/
theorem C5_long_baseline (p : String → Bool) (f : Nat → List FlowRecord)
    (t : Nat) (h : String) :
    (∀ v, longWindow p f t h = some v →
      longInc v = ((longIntervals t).map
        (fun i => (shortWindow p (f i) h).elim 0 STally.incomingPackets)).sum ∧
      longOut v = ((longIntervals t).map
        (fun i => (shortWindow p (f i) h).elim 0 STally.outgoingPackets)).sum) ∧
    (longWindow p f t h = none ↔
      ∀ i ∈ longIntervals t, shortWindow p (f i) h = none) ∧
    (∀ i, i ∈ longIntervals t ↔ i ≤ t ∧ t < i + horizonIntervals) ∧
    horizonIntervals = long_window_length / base_window_length ∧
    horizonIntervals = 240 := by
  refine ⟨?_, ?_, longIntervals_mem t, rfl, rfl⟩
  · intro v hv
    obtain ⟨h1, h2⟩ := reduceLong_spec _ _ hv
    constructor
    · rw [h1]
      exact filterMap_map_sum _ _ _
    · rw [h2]
      exact filterMap_map_sum _ _ _
  · unfold longWindow
    rw [reduceLong_eq_none]
    unfold intervalTallies
    exact List.filterMap_eq_nil_iff

theorem C5_witness :
    longInc (LongVal.reduced 100001 1001) =
      ((longIntervals 1).map
        (fun i => (shortWindow demoPred (demoStream2 i) "V").elim 0
          STally.incomingPackets)).sum ∧
    longOut (LongVal.reduced 100001 1001) =
      ((longIntervals 1).map
        (fun i => (shortWindow demoPred (demoStream2 i) "V").elim 0
          STally.outgoingPackets)).sum :=
  (C5_long_baseline demoPred demoStream2 1 "V").1
    (LongVal.reduced 100001 1001) (by decide)

/-- C6: counterexample to the claim that the long-window aggregation
always discards the `inboundSources` set when it absorbs a sealed short
tally: with activity in exactly one base interval of the horizon,
`reduceByKey` never calls the combining lambda and the long-window value
retains the full short tally, nonempty attacker set included. -/
theorem C6_counterexample :
    longWindow demoPred demoStream1 0 "V" =
      some (LongVal.single ⟨5, 0, {"A"}⟩) ∧
    (⟨5, 0, {"A"}⟩ : STally).inboundSources ≠ ∅ :=
  ⟨by decide, by decide⟩

/-- C6 (amended): whenever the long-window aggregation combines two or
more per-interval tallies for a host it keeps only the incoming and
outgoing packet sums and no attacker set; a host contributing exactly one
interval keeps the full tally of that interval, but in every case the two
packet counts the long value exposes are the sums over the horizon. -/
theorem C6_amended_absorb (p : String → Bool) (f : Nat → List FlowRecord)
    (t : Nat) (h : String) (v : LongVal)
    (hv : longWindow p f t h = some v) :
    (2 ≤ (intervalTallies p f t h).length → ∃ i o, v = LongVal.reduced i o) ∧
    longInc v = ((intervalTallies p f t h).map STally.incomingPackets).sum ∧
    longOut v = ((intervalTallies p f t h).map STally.outgoingPackets).sum :=
  ⟨fun h2 => reduceLong_of_two _ _ hv h2,
   (reduceLong_spec _ _ hv).1, (reduceLong_spec _ _ hv).2⟩

theorem C6_amended_witness :
    (∃ i o, LongVal.reduced 100001 1001 = LongVal.reduced i o) ∧
    longInc (LongVal.reduced 100001 1001) =
      ((intervalTallies demoPred demoStream2 1 "V").map
        STally.incomingPackets).sum ∧
    longOut (LongVal.reduced 100001 1001) =
      ((intervalTallies demoPred demoStream2 1 "V").map
        STally.outgoingPackets).sum := by
  obtain ⟨h1, h2, h3⟩ := C6_amended_absorb demoPred demoStream2 1 "V"
    (LongVal.reduced 100001 1001) (by decide)
  exact ⟨h1 (by decide), h2, h3⟩

/-- C8: conservation of inbound packets through the short-window
aggregation: over any sealed base interval, the sum over all hosts of the
short tallies incoming counts equals the sum of the packet deltas of the
inbound events of the interval. -/
theorem C8_conservation (p : String → Bool) (recs : List FlowRecord) :
    ∑ h in hostsOf p recs,
      (shortWindow p recs h).elim 0 STally.incomingPackets
      = ((inboundEvents p recs).map FlowRecord.packetDelta).sum := by
  have step1 : ∑ h in hostsOf p recs,
      (shortWindow p recs h).elim 0 STally.incomingPackets
      = ∑ h in hostsOf p recs,
          (((eventsIn p recs).filter (fun e => e.1 == h)).map
            (fun e => STally.incomingPackets e.2)).sum := by
    refine Finset.sum_congr rfl fun h _ => ?_
    rw [shortWindow_elim_inc]
    unfold valuesFor
    rw [List.map_map]
    rfl
  rw [step1]
  unfold hostsOf
  rw [sum_group STally.incomingPackets (eventsIn p recs)]
  exact eventsIn_inc_sum p recs

/-- C9: the alert built for an alerted host carries as `attackers` exactly
the short-window `inboundSources` set of that host, which is the set of
distinct source addresses observed inbound to the host in the triggering
interval. -/
theorem C9_attackers (p : String → Bool) (f : Nat → List FlowRecord)
    (t : Nat) (h : String) (s : STally) (l : LongVal)
    (hj : joined p f t h = some (s, l)) (_ha : alerted p f t h = true) :
    (mkAlert h (s, l)).attackers = s.inboundSources ∧
    s.inboundSources = inboundSet p (f t) h := by
  have hs : shortWindow p (f t) h = some s :=
    ((joined_eq_some p f t h s l).mp hj).1
  exact ⟨rfl, (shortWindow_spec p (f t) h s hs).2.2⟩

lemma alerted_demo2 : alerted demoPred demoStream2 1 "V" = true := by
  have hj : joined demoPred demoStream2 1 "V" =
      some (⟨100001, 1, {"A"}⟩, LongVal.reduced 100001 1001) := by decide
  simp only [alerted, hj]
  norm_num [suspicious, longInc, longOut, threshold, minimal_incoming]

theorem C9_witness :
    (mkAlert "V" (⟨100001, 1, {"A"}⟩, LongVal.reduced 100001 1001)).attackers
        = ({"A"} : Finset String) ∧
    ({"A"} : Finset String) = inboundSet demoPred (demoStream2 1) "V" :=
  C9_attackers demoPred demoStream2 1 "V" ⟨100001, 1, {"A"}⟩
    (LongVal.reduced 100001 1001) (by decide) alerted_demo2

/-- C10: every emitted alert has a non-empty attacker set: alerting
requires the short incoming count to exceed `minimal_incoming`, hence at
least one inbound record, and every inbound record puts its source address
into the set that becomes the `attackers` field of the alert. -/
theorem C10_attackers_nonempty (p : String → Bool) (f : Nat → List FlowRecord)
    (t : Nat) (h : String) (ha : alerted p f t h = true) :
    ∃ s l, joined p f t h = some (s, l) ∧
      (mkAlert h (s, l)).attackers ≠ ∅ := by
  unfold alerted at ha
  cases hj : joined p f t h with
  | none => rw [hj] at ha; exact absurd ha (by simp)
  | some sl =>
    obtain ⟨s, l⟩ := sl
    rw [hj] at ha
    refine ⟨s, l, rfl, ?_⟩
    have hsusp : suspicious s l = true := by
      simp only [Bool.and_eq_true] at ha
      exact ha.2
    have hinc : minimal_incoming < s.incomingPackets := by
      simp only [suspicious, Bool.and_eq_true, decide_eq_true_eq] at hsusp
      exact hsusp.1
    have hs : shortWindow p (f t) h = some s :=
      ((joined_eq_some p f t h s l).mp hj).1
    have hsrc : s.inboundSources = inboundSet p (f t) h :=
      (shortWindow_spec p (f t) h s hs).2.2
    have hincEq : s.incomingPackets = incSum p (f t) h :=
      (shortWindow_spec p (f t) h s hs).1
    have hpos : 0 < incSum p (f t) h := by
      rw [hincEq] at hinc
      exact lt_of_le_of_lt (Nat.zero_le _) hinc
    have hne : inboundRecords p (f t) h ≠ [] := by
      intro hnil
      rw [incSum, hnil] at hpos
      simp at hpos
    have hset : inboundSet p (f t) h ≠ ∅ := by
      cases hrec : inboundRecords p (f t) h with
      | nil => exact absurd hrec hne
      | cons r0 rest => simp [inboundSet, hrec]
    show s.inboundSources ≠ ∅
    rw [hsrc]
    exact hset

theorem C10_witness :
    ∃ s l, joined demoPred demoStream2 1 "V" = some (s, l) ∧
      (mkAlert "V" (s, l)).attackers ≠ ∅ :=
  C10_attackers_nonempty demoPred demoStream2 1 "V" alerted_demo2

end DDoS
